import Mathlib

/-!
Verification of the Reson real-time audio duplex pipeline and phase state
machine, shallowly embedded from the TypeScript source
(`src/services/geminiService.ts`, `src/unnamed/part_000`, `src/unnamed/part_002`).

Times, durations and audio sample values are JavaScript numbers in the source;
they are modelled as rationals (all arithmetic the claims depend on — `max`,
addition of durations, multiplication and division by the power of two 32768,
truncation toward zero — is exact in binary floating point for the relevant
ranges, so the rational model is faithful).
-/

namespace Reson

/-! ## Phase state machine (src/unnamed/part_000 lines 3-57, src/unnamed/part_002 lines 10-32) -/

/-- `IntelligencePhase` from `src/unnamed/part_000` (the source's
"generating-audio" is spelled `generatingAudio`). -/
inductive IntelligencePhase
  | idle
  | listening
  | thinking
  | synthesizing
  | speaking
  | reflecting
  | generatingAudio
  | explaining
  | error
  deriving DecidableEq, Repr

/-- `IntelligenceState` from `src/unnamed/part_000` lines 36-48
(`IntelligenceSignal` plus `synthesisProgress` and `lastUtteranceTs`). -/
structure IntelligenceState where
  phase : IntelligencePhase
  intensity : ℚ
  confidence : ℚ
  interruptible : Bool
  transcript : String
  partialTranscript : String
  synthesisProgress : ℚ
  lastUtteranceTs : ℚ
  deriving DecidableEq, Repr

/-- `initialIntelligenceState` from `src/unnamed/part_002` lines 10-19. -/
def initialIntelligenceState : IntelligenceState :=
  { phase := .idle
    intensity := 0
    confidence := 0
    interruptible := true
    transcript := ""
    partialTranscript := ""
    synthesisProgress := 0
    lastUtteranceTs := 0 }

/-- `IntelligenceAction` from `src/unnamed/part_000` lines 50-57.  The
source's optional boolean flag on `SIGNAL_TRANSCRIPT` (absent = false-y) is
modelled as the `Bool` argument `isInterim`. -/
inductive IntelligenceAction
  | SIGNAL_PHASE (payload : IntelligencePhase)
  | SIGNAL_INTENSITY (payload : ℚ)
  | SIGNAL_CONFIDENCE (payload : ℚ)
  | SIGNAL_TRANSCRIPT (payload : String) (isInterim : Bool)
  | SIGNAL_PROGRESS (payload : ℚ)
  | SIGNAL_INTERRUPT
  | SIGNAL_RESET
  deriving DecidableEq, Repr

/-- `intelligenceReducer` from `src/unnamed/part_002` lines 21-32.  The
source's `default: return state` branch is unreachable because the action
union is closed; the Lean match is correspondingly exhaustive. -/
def intelligenceReducer (state : IntelligenceState) (action : IntelligenceAction) :
    IntelligenceState :=
  match action with
  | .SIGNAL_PHASE p => { state with phase := p }
  | .SIGNAL_INTENSITY v => { state with intensity := v }
  | .SIGNAL_CONFIDENCE v => { state with confidence := v }
  | .SIGNAL_TRANSCRIPT t i =>
      if i then { state with partialTranscript := t }
      else { state with transcript := t, partialTranscript := "" }
  | .SIGNAL_PROGRESS v => { state with synthesisProgress := v }
  | .SIGNAL_INTERRUPT =>
      { state with phase := .explaining, intensity := 0, partialTranscript := "" }
  | .SIGNAL_RESET => initialIntelligenceState

/-- C5: the phase reducer is total and pure — every `(state, signal)` pair
yields a (fully-defined) next state, and `SIGNAL_RESET` applied to any state
yields exactly `initialIntelligenceState`. -/
theorem intelligenceReducer_total_and_reset (s : IntelligenceState)
    (a : IntelligenceAction) :
    (∃ s2, intelligenceReducer s a = s2) ∧
    intelligenceReducer s IntelligenceAction.SIGNAL_RESET = initialIntelligenceState :=
  ⟨⟨intelligenceReducer s a, rfl⟩, rfl⟩

/-- C6: frame conditions of the reducer — `SIGNAL_PHASE p` changes only
`phase`; `SIGNAL_INTERRUPT` sets `phase := explaining`, `intensity := 0`,
`partialTranscript := ""` and nothing else; `SIGNAL_TRANSCRIPT` with the
interim flag updates only `partialTranscript`, and without it sets
`transcript` and clears `partialTranscript`, leaving all other fields
unchanged. -/
theorem intelligenceReducer_frame_conditions (s : IntelligenceState)
    (p : IntelligencePhase) (t : String) :
    ((intelligenceReducer s (.SIGNAL_PHASE p)).phase = p ∧
     (intelligenceReducer s (.SIGNAL_PHASE p)).intensity = s.intensity ∧
     (intelligenceReducer s (.SIGNAL_PHASE p)).confidence = s.confidence ∧
     (intelligenceReducer s (.SIGNAL_PHASE p)).interruptible = s.interruptible ∧
     (intelligenceReducer s (.SIGNAL_PHASE p)).transcript = s.transcript ∧
     (intelligenceReducer s (.SIGNAL_PHASE p)).partialTranscript = s.partialTranscript ∧
     (intelligenceReducer s (.SIGNAL_PHASE p)).synthesisProgress = s.synthesisProgress ∧
     (intelligenceReducer s (.SIGNAL_PHASE p)).lastUtteranceTs = s.lastUtteranceTs) ∧
    ((intelligenceReducer s .SIGNAL_INTERRUPT).phase = .explaining ∧
     (intelligenceReducer s .SIGNAL_INTERRUPT).intensity = 0 ∧
     (intelligenceReducer s .SIGNAL_INTERRUPT).partialTranscript = "" ∧
     (intelligenceReducer s .SIGNAL_INTERRUPT).confidence = s.confidence ∧
     (intelligenceReducer s .SIGNAL_INTERRUPT).interruptible = s.interruptible ∧
     (intelligenceReducer s .SIGNAL_INTERRUPT).transcript = s.transcript ∧
     (intelligenceReducer s .SIGNAL_INTERRUPT).synthesisProgress = s.synthesisProgress ∧
     (intelligenceReducer s .SIGNAL_INTERRUPT).lastUtteranceTs = s.lastUtteranceTs) ∧
    ((intelligenceReducer s (.SIGNAL_TRANSCRIPT t true)).partialTranscript = t ∧
     (intelligenceReducer s (.SIGNAL_TRANSCRIPT t true)).phase = s.phase ∧
     (intelligenceReducer s (.SIGNAL_TRANSCRIPT t true)).intensity = s.intensity ∧
     (intelligenceReducer s (.SIGNAL_TRANSCRIPT t true)).confidence = s.confidence ∧
     (intelligenceReducer s (.SIGNAL_TRANSCRIPT t true)).interruptible = s.interruptible ∧
     (intelligenceReducer s (.SIGNAL_TRANSCRIPT t true)).transcript = s.transcript ∧
     (intelligenceReducer s (.SIGNAL_TRANSCRIPT t true)).synthesisProgress = s.synthesisProgress ∧
     (intelligenceReducer s (.SIGNAL_TRANSCRIPT t true)).lastUtteranceTs = s.lastUtteranceTs) ∧
    ((intelligenceReducer s (.SIGNAL_TRANSCRIPT t false)).transcript = t ∧
     (intelligenceReducer s (.SIGNAL_TRANSCRIPT t false)).partialTranscript = "" ∧
     (intelligenceReducer s (.SIGNAL_TRANSCRIPT t false)).phase = s.phase ∧
     (intelligenceReducer s (.SIGNAL_TRANSCRIPT t false)).intensity = s.intensity ∧
     (intelligenceReducer s (.SIGNAL_TRANSCRIPT t false)).confidence = s.confidence ∧
     (intelligenceReducer s (.SIGNAL_TRANSCRIPT t false)).interruptible = s.interruptible ∧
     (intelligenceReducer s (.SIGNAL_TRANSCRIPT t false)).synthesisProgress = s.synthesisProgress ∧
     (intelligenceReducer s (.SIGNAL_TRANSCRIPT t false)).lastUtteranceTs = s.lastUtteranceTs) :=
  ⟨⟨rfl, rfl, rfl, rfl, rfl, rfl, rfl, rfl⟩,
   ⟨rfl, rfl, rfl, rfl, rfl, rfl, rfl, rfl⟩,
   ⟨rfl, rfl, rfl, rfl, rfl, rfl, rfl, rfl⟩,
   ⟨rfl, rfl, rfl, rfl, rfl, rfl, rfl, rfl⟩⟩

/-- One reducer step preserves `interruptible = true` and
`lastUtteranceTs = 0`. -/
lemma intelligenceReducer_preserves_const (s : IntelligenceState)
    (a : IntelligenceAction) (hI : s.interruptible = true)
    (hT : s.lastUtteranceTs = 0) :
    (intelligenceReducer s a).interruptible = true ∧
    (intelligenceReducer s a).lastUtteranceTs = 0 := by
  cases a with
  | SIGNAL_TRANSCRIPT t i => cases i <;> exact ⟨hI, hT⟩
  | SIGNAL_RESET => exact ⟨rfl, rfl⟩
  | _ => exact ⟨hI, hT⟩

/-- Folding the reducer from any state with the two constant fields at their
initial values keeps them there. -/
lemma intelligenceReducer_foldl_const (acts : List IntelligenceAction) :
    ∀ s : IntelligenceState, s.interruptible = true → s.lastUtteranceTs = 0 →
      (acts.foldl intelligenceReducer s).interruptible = true ∧
      (acts.foldl intelligenceReducer s).lastUtteranceTs = 0 := by
  induction acts with
  | nil => intro s hI hT; exact ⟨hI, hT⟩
  | cons a rest ih =>
      intro s hI hT
      have h := intelligenceReducer_preserves_const s a hI hT
      exact ih (intelligenceReducer s a) h.1 h.2

/-- C10: in every state reachable from the initial state by any sequence of
recognized signals, `interruptible = true` and `lastUtteranceTs = 0`; no
signal other than `SIGNAL_RESET` modifies either field, and `SIGNAL_RESET`
restores their initial values — the two fields are constants of the phase
machine. -/
theorem intelligenceReducer_constant_fields (acts : List IntelligenceAction) :
    ((acts.foldl intelligenceReducer initialIntelligenceState).interruptible = true ∧
     (acts.foldl intelligenceReducer initialIntelligenceState).lastUtteranceTs = 0) ∧
    (∀ (s : IntelligenceState) (a : IntelligenceAction), a ≠ .SIGNAL_RESET →
      (intelligenceReducer s a).interruptible = s.interruptible ∧
      (intelligenceReducer s a).lastUtteranceTs = s.lastUtteranceTs) ∧
    (∀ s : IntelligenceState,
      (intelligenceReducer s .SIGNAL_RESET).interruptible = true ∧
      (intelligenceReducer s .SIGNAL_RESET).lastUtteranceTs = 0) := by
  refine ⟨intelligenceReducer_foldl_const acts initialIntelligenceState rfl rfl, ?_, ?_⟩
  · intro s a ha
    cases a with
    | SIGNAL_TRANSCRIPT t i => cases i <;> exact ⟨rfl, rfl⟩
    | SIGNAL_RESET => exact absurd rfl ha
    | _ => exact ⟨rfl, rfl⟩
  · intro s; exact ⟨rfl, rfl⟩

/-- Witness for `intelligenceReducer_constant_fields` at a concrete signal
sequence and a concrete non-reset signal. -/
theorem intelligenceReducer_constant_fields_witness :
    (([IntelligenceAction.SIGNAL_INTERRUPT,
       IntelligenceAction.SIGNAL_INTENSITY 1].foldl intelligenceReducer
        initialIntelligenceState).interruptible = true) ∧
    ((intelligenceReducer initialIntelligenceState
        (.SIGNAL_PHASE .listening)).interruptible =
      initialIntelligenceState.interruptible) :=
  ⟨(intelligenceReducer_constant_fields
      [IntelligenceAction.SIGNAL_INTERRUPT,
       IntelligenceAction.SIGNAL_INTENSITY 1]).1.1,
   ((intelligenceReducer_constant_fields []).2.1 initialIntelligenceState
      (.SIGNAL_PHASE .listening) (by decide)).1⟩

/-! ## Playback scheduler (src/services/geminiService.ts lines 185-221) -/

/-- One entry of `activeAudioSources`: an `AudioBufferSourceNode` carrying its
buffer's duration and the start time it was given (`source.start(...)`). -/
structure ScheduledSource where
  startTime : ℚ
  duration : ℚ
  deriving DecidableEq, Repr

/-- The scheduler's mutable state in `GeminiService`: the field
`scheduledTime` (the next-play-time cursor) and the set
`activeAudioSources`. -/
structure SchedulerState where
  scheduledTime : ℚ
  activeAudioSources : List ScheduledSource
  deriving DecidableEq, Repr

/-- JavaScript `v || 0` on a number `v` (used in the interruption handler:
`this.outputAudioContext?.currentTime || 0`): `0` is false-y, every other
number is truthy. -/
def jsOr0 (q : ℚ) : ℚ := if q = 0 then 0 else q

lemma jsOr0_eq (q : ℚ) : jsOr0 q = q := by
  unfold jsOr0; split <;> simp_all

/-- `playBuffered` from `geminiService.ts` lines 211-221, with the output
context present and its monotone clock reading `now`:
`scheduledTime = max(scheduledTime, currentTime); source.start(scheduledTime);
scheduledTime += buffer.duration; activeAudioSources.add(source)`.
Returns the new state and the start time passed to `source.start`. -/
def playBuffered (now duration : ℚ) (s : SchedulerState) : SchedulerState × ℚ :=
  let start := max s.scheduledTime now
  ({ scheduledTime := start + duration
     activeAudioSources := s.activeAudioSources ++ [⟨start, duration⟩] }, start)

/-- The interruption branch of `connectLive.onmessage` (lines 186-190):
stop every active source (each `stop()` wrapped in try/catch), clear the set,
and reset `scheduledTime` to `outputAudioContext.currentTime || 0`.
Returns the new state and the list of sources that were stopped. -/
def flushPlayback (now : ℚ) (s : SchedulerState) :
    SchedulerState × List ScheduledSource :=
  ({ scheduledTime := jsOr0 now, activeAudioSources := [] },
   s.activeAudioSources)

/-- Start times produced by a sequence of `playBuffered` calls with no
intervening flush; each call is tagged with the device-clock reading `now`
at the moment of the call and the buffer's `duration`. -/
def scheduleStarts (s : SchedulerState) : List (ℚ × ℚ) → List ℚ
  | [] => []
  | (now, dur) :: rest =>
      (playBuffered now dur s).2 :: scheduleStarts (playBuffered now dur s).1 rest

lemma scheduleStarts_length (calls : List (ℚ × ℚ)) :
    ∀ s : SchedulerState, (scheduleStarts s calls).length = calls.length := by
  induction calls with
  | nil => intro s; rfl
  | cons c rest ih =>
      intro s
      obtain ⟨now, dur⟩ := c
      simp [scheduleStarts, ih]

/-- C1: for every sequence of `playBuffered` calls on one output context with
no intervening flush, the start time of call `k+1` is
`max (start k + duration k) (now at call k+1)`: it equals
`start k + duration k` (gapless) except when the device clock has already
advanced past that expected start, in which case it equals the current
device-clock time; and consecutive buffers never overlap
(`start (k+1) ≥ start k + duration k`). -/
theorem playBuffered_gapless (s : SchedulerState) (calls : List (ℚ × ℚ))
    (k : ℕ) (hk : k + 1 < calls.length) :
    (scheduleStarts s calls).getD (k + 1) 0 =
      max ((scheduleStarts s calls).getD k 0 + (calls.getD k (0, 0)).2)
        (calls.getD (k + 1) (0, 0)).1 ∧
    ((calls.getD (k + 1) (0, 0)).1 ≤
        (scheduleStarts s calls).getD k 0 + (calls.getD k (0, 0)).2 →
      (scheduleStarts s calls).getD (k + 1) 0 =
        (scheduleStarts s calls).getD k 0 + (calls.getD k (0, 0)).2) ∧
    ((scheduleStarts s calls).getD k 0 + (calls.getD k (0, 0)).2 <
        (calls.getD (k + 1) (0, 0)).1 →
      (scheduleStarts s calls).getD (k + 1) 0 = (calls.getD (k + 1) (0, 0)).1) ∧
    (scheduleStarts s calls).getD k 0 + (calls.getD k (0, 0)).2 ≤
      (scheduleStarts s calls).getD (k + 1) 0 := by
  induction calls generalizing s k with
  | nil => simp at hk
  | cons c rest ih =>
      obtain ⟨now, dur⟩ := c
      cases k with
      | zero =>
          cases rest with
          | nil => simp at hk
          | cons c2 rest2 =>
              obtain ⟨now2, dur2⟩ := c2
              have hmax :
                  (scheduleStarts s ((now, dur) :: (now2, dur2) :: rest2)).getD 1 0 =
                    max ((scheduleStarts s ((now, dur) :: (now2, dur2) :: rest2)).getD 0 0
                      + dur) now2 := by
                simp [scheduleStarts, playBuffered]
              refine ⟨hmax, ?_, ?_, ?_⟩
              · intro h
                rw [hmax]
                exact max_eq_left h
              · intro h
                rw [hmax]
                exact max_eq_right (le_of_lt h)
              · rw [hmax]
                exact le_max_left _ _
      | succ j =>
          have hk2 : j + 1 < rest.length := by simpa using hk
          have h := ih (playBuffered now dur s).1 j hk2
          simpa [scheduleStarts] using h

/-- Concrete witness for `playBuffered_gapless`: from a fresh scheduler at
time 0, two one-second buffers scheduled immediately give start times 0 and
1 (the second equals the first's end). -/
theorem playBuffered_gapless_witness :
    (scheduleStarts ⟨0, []⟩
        [((0 : ℚ), (1 : ℚ)), ((0 : ℚ), (1 : ℚ))]).getD 1 0 =
      (scheduleStarts ⟨0, []⟩
        [((0 : ℚ), (1 : ℚ)), ((0 : ℚ), (1 : ℚ))]).getD 0 0 + (1 : ℚ) :=
  ((playBuffered_gapless ⟨0, []⟩ [((0 : ℚ), (1 : ℚ)), ((0 : ℚ), (1 : ℚ))] 0
      (by norm_num)).2.1 (by norm_num [scheduleStarts, playBuffered]))

/-- C2: the interruption flush stops exactly the entries of the active set,
leaves the active set empty, resets the cursor to the device-clock time of
the flush, and any subsequent `playBuffered` (the clock having advanced
monotonically to `tS ≥ tF`) starts at or after the flush-time clock reading. -/
theorem flushPlayback_resets (s : SchedulerState) (tF tS d : ℚ)
    (hmono : tF ≤ tS) :
    (flushPlayback tF s).2 = s.activeAudioSources ∧
    (flushPlayback tF s).1.activeAudioSources = [] ∧
    (flushPlayback tF s).1.scheduledTime = tF ∧
    tF ≤ (playBuffered tS d (flushPlayback tF s).1).2 := by
  refine ⟨rfl, rfl, jsOr0_eq tF, ?_⟩
  calc tF ≤ tS := hmono
    _ ≤ max (flushPlayback tF s).1.scheduledTime tS := le_max_right _ _
    _ = (playBuffered tS d (flushPlayback tF s).1).2 := rfl

/-- Concrete witness for `flushPlayback_resets`: flush at time 3 with one
active source, then schedule a unit buffer at time 4. -/
theorem flushPlayback_resets_witness :
    (flushPlayback 3 ⟨(10 : ℚ), [⟨0, 2⟩]⟩).2 = [⟨0, 2⟩] ∧
    (flushPlayback 3 ⟨(10 : ℚ), [⟨0, 2⟩]⟩).1.activeAudioSources = [] ∧
    (flushPlayback 3 ⟨(10 : ℚ), [⟨0, 2⟩]⟩).1.scheduledTime = 3 ∧
    (3 : ℚ) ≤ (playBuffered 4 1 (flushPlayback 3 ⟨(10 : ℚ), [⟨0, 2⟩]⟩).1).2 :=
  flushPlayback_resets ⟨(10 : ℚ), [⟨0, 2⟩]⟩ 3 4 1 (by norm_num)

/-- An event hitting the scheduler state: a `playBuffered` call or an
interruption flush, each tagged with the device-clock reading at the moment
it runs. -/
inductive SchedEvent
  | scheduleEv (now duration : ℚ)
  | flushEv (now : ℚ)
  deriving DecidableEq, Repr

/-- The device-clock reading of an event. -/
def SchedEvent.now : SchedEvent → ℚ
  | .scheduleEv n _ => n
  | .flushEv n => n

/-- The buffer duration of an event (0 for a flush). -/
def SchedEvent.dur : SchedEvent → ℚ
  | .scheduleEv _ d => d
  | .flushEv _ => 0

/-- One scheduler step. -/
def schedStep (s : SchedulerState) (e : SchedEvent) : SchedulerState :=
  match e with
  | .scheduleEv n d => (playBuffered n d s).1
  | .flushEv n => (flushPlayback n s).1

/-- Run a sequence of scheduler events. -/
def runSched (s : SchedulerState) (evs : List SchedEvent) : SchedulerState :=
  evs.foldl schedStep s

/-- The device clock is monotone along the event sequence, starting from
reading `c`. -/
def chrono : ℚ → List SchedEvent → Bool
  | _, [] => true
  | c, e :: rest => decide (c ≤ e.now) && chrono e.now rest

/-- The clock reading of the last event (`c` if there is none). -/
def lastNow : ℚ → List SchedEvent → ℚ
  | c, [] => c
  | _, e :: rest => lastNow e.now rest

lemma runSched_scheduledTime_ge (evs : List SchedEvent) :
    ∀ (c : ℚ) (s : SchedulerState), c ≤ s.scheduledTime →
      chrono c evs = true → (∀ e ∈ evs, 0 ≤ e.dur) →
      lastNow c evs ≤ (runSched s evs).scheduledTime := by
  induction evs with
  | nil => intro c s hs _ _; exact hs
  | cons e rest ih =>
      intro c s hs hchron hdur
      have hchron2 : chrono e.now rest = true := by
        simp [chrono] at hchron; exact hchron.2
      have hstep : e.now ≤ (schedStep s e).scheduledTime := by
        cases e with
        | scheduleEv n d =>
            have hd : 0 ≤ d := hdur (SchedEvent.scheduleEv n d) (by simp)
            have : (n : ℚ) ≤ max s.scheduledTime n + d := by
              have := le_max_right s.scheduledTime n
              linarith
            simpa [schedStep, playBuffered, SchedEvent.now] using this
        | flushEv n =>
            simp [schedStep, flushPlayback, jsOr0_eq, SchedEvent.now]
      have hdur2 : ∀ e2 ∈ rest, 0 ≤ e2.dur := fun e2 he2 => hdur e2 (by simp [he2])
      have := ih e.now (schedStep s e) hstep hchron2 hdur2
      simpa [runSched, lastNow] using this

/-- C7: the cursor invariant.  Starting from the state `connectLive` sets up
(`scheduledTime = outputAudioContext.currentTime`, empty active set) and
running any interleaving of schedule and interruption-flush events whose
clock readings are monotone and whose buffer durations are nonnegative, the
cursor ends at or above the device clock's last reading; moreover each
schedule step only ever increases the cursor — by the buffer's duration from
`max(cursor, now)` — and each flush step resets it to the current
device-clock reading. -/
theorem nextStartTime_invariant (now0 : ℚ) (evs : List SchedEvent)
    (hchron : chrono now0 evs = true) (hdur : ∀ e ∈ evs, 0 ≤ e.dur) :
    lastNow now0 evs ≤ (runSched ⟨now0, []⟩ evs).scheduledTime ∧
    (∀ (s : SchedulerState) (n d : ℚ), 0 ≤ d →
      s.scheduledTime ≤ (schedStep s (.scheduleEv n d)).scheduledTime ∧
      (schedStep s (.scheduleEv n d)).scheduledTime = max s.scheduledTime n + d) ∧
    (∀ (s : SchedulerState) (n : ℚ),
      (schedStep s (.flushEv n)).scheduledTime = n) := by
  refine ⟨runSched_scheduledTime_ge evs now0 ⟨now0, []⟩ le_rfl hchron hdur, ?_, ?_⟩
  · intro s n d hd
    constructor
    · have h1 : s.scheduledTime ≤ max s.scheduledTime n := le_max_left _ _
      have : s.scheduledTime ≤ max s.scheduledTime n + d := by linarith
      simpa [schedStep, playBuffered] using this
    · simp [schedStep, playBuffered]
  · intro s n
    simp [schedStep, flushPlayback, jsOr0_eq]

/-- Concrete witness for `nextStartTime_invariant`: schedule a unit buffer at
time 0, flush at time 5, schedule another unit buffer at time 5; the cursor
ends at 6 ≥ 5. -/
theorem nextStartTime_invariant_witness :
    lastNow 0 [SchedEvent.scheduleEv 0 1, SchedEvent.flushEv 5,
        SchedEvent.scheduleEv 5 1] ≤
      (runSched ⟨0, []⟩ [SchedEvent.scheduleEv 0 1, SchedEvent.flushEv 5,
        SchedEvent.scheduleEv 5 1]).scheduledTime :=
  (nextStartTime_invariant 0
      [SchedEvent.scheduleEv 0 1, SchedEvent.flushEv 5,
       SchedEvent.scheduleEv 5 1]
      (by norm_num [chrono, SchedEvent.now])
      (by intro e he; fin_cases he <;> norm_num [SchedEvent.dur])).1

/-! ## Session teardown (src/services/geminiService.ts lines 236-243)

`stopLive` releases, in order: the live session channel (`close()` wrapped in
try/catch), the microphone tracks (`MediaStreamTrack.stop()`, which the
platform defines as never throwing), every active audio source (`stop()`
wrapped in try/catch), and the two audio contexts (`AudioContext.close()`,
whose synchronous part never throws — failures surface as promise
rejections).  Each guarded field is nulled after its release step. -/

/-- The nullable resource fields of `GeminiService` that `stopLive`
releases; audio sources are identified by handles. -/
structure LiveResources where
  activeSession : Bool
  micStream : Bool
  activeAudioSources : List ℕ
  inputAudioContext : Bool
  outputAudioContext : Bool
  deriving DecidableEq, Repr

/-- The fully released state: every field nulled, no scheduled playback. -/
def releasedResources : LiveResources :=
  { activeSession := false
    micStream := false
    activeAudioSources := []
    inputAudioContext := false
    outputAudioContext := false }

/-- One release action performed by `stopLive`, for the teardown log. -/
inductive ReleaseStep
  | sessionClose
  | trackStop
  | sourceStop (h : ℕ)
  | inputCtxClose
  | outputCtxClose
  deriving DecidableEq, Repr

/-- A fault model for the release steps that can throw synchronously:
`session.close()` and `AudioBufferSourceNode.stop()` (the latter throws
`InvalidStateError` if the node was never started). -/
structure TeardownFaults where
  sessionCloseThrows : Bool
  sourceStopThrows : ℕ → Bool

/-- `(await this.activeSession).close()` — may throw, per the fault model. -/
def closeSession (f : TeardownFaults) : Except String Unit :=
  if f.sessionCloseThrows then .error "close failed" else .ok ()

/-- `s.stop()` on one active audio source — may throw, per the fault model. -/
def stopSource (f : TeardownFaults) (h : ℕ) : Except String Unit :=
  if f.sourceStopThrows h then .error "InvalidStateError" else .ok ()

/-- `t.stop()` on a `MediaStreamTrack`: the platform defines it as
infallible. -/
def stopTrack : Except String Unit := .ok ()

/-- The synchronous part of `AudioContext.close()`: returns a promise and
never throws synchronously (a close failure rejects the promise). -/
def closeCtx : Except String Unit := .ok ()

/-- `try { e } catch (err) {}`: the result or error of `e` is discarded. -/
def trySwallow (_e : Except String Unit) : Unit := ()

/-- `stopLive` from `geminiService.ts` lines 236-243.  Errors of the
fallible steps are swallowed by their try/catch (`trySwallow`); the
infallible platform steps are sequenced in the error monad, so an error in
any of them would propagate.  Returns the resource state left behind and the
ordered log of release steps that ran. -/
def stopLive (f : TeardownFaults) (r : LiveResources) :
    Except String (LiveResources × List ReleaseStep) := do
  let log1 : List ReleaseStep :=
    if r.activeSession then
      let _ := trySwallow (closeSession f)
      [.sessionClose]
    else []
  let log2 : List ReleaseStep ←
    if r.micStream then do
      _ ← stopTrack
      pure [.trackStop]
    else pure []
  let log3 : List ReleaseStep :=
    r.activeAudioSources.map (fun h =>
      let _ := trySwallow (stopSource f h)
      ReleaseStep.sourceStop h)
  let log4 : List ReleaseStep ←
    if r.inputAudioContext then do
      _ ← closeCtx
      pure [.inputCtxClose]
    else pure []
  let log5 : List ReleaseStep ←
    if r.outputAudioContext then do
      _ ← closeCtx
      pure [.outputCtxClose]
    else pure []
  pure (releasedResources, log1 ++ log2 ++ log3 ++ log4 ++ log5)

/-- C8: `stopLive` never raises an error and fully releases every resource
regardless of which fallible steps fault (a failure in one release step does
not prevent the remaining steps from running); calling it again — whether
directly or because a remote-close event already ran it — performs no
release step, raises no error, and leaves the released state unchanged; and
the released state carries no dangling scheduled playback. -/
theorem stopLive_idempotent_safe (f f2 : TeardownFaults) (r : LiveResources) :
    (∃ steps, stopLive f r = .ok (releasedResources, steps)) ∧
    stopLive f2 releasedResources = .ok (releasedResources, []) ∧
    releasedResources.activeAudioSources = [] := by
  obtain ⟨a, m, src, ic, oc⟩ := r
  refine ⟨?_, rfl, rfl⟩
  cases a <;> cases m <;> cases ic <;> cases oc <;> exact ⟨_, rfl⟩

/-! ## PCM encoder and decoder (src/services/geminiService.ts lines 223-234, 256-272) -/

/-- JavaScript truncation toward zero of a finite number
(`ToIntegerOrInfinity`), the first stage of storing a number into an
`Int16Array` element. -/
def jsTrunc (q : ℚ) : ℤ := if 0 ≤ q then ⌊q⌋ else ⌈q⌉

/-- The second stage of the `Int16Array` element store (`ToInt16`): reduce
the truncated integer modulo 2^16 into [-32768, 32768). -/
def toInt16 (n : ℤ) : ℤ :=
  let m := n % 65536
  if m < 32768 then m else m - 65536

/-- `int16[i] = x` for a JavaScript number `x`: truncate toward zero, then
wrap modulo 2^16. -/
def int16OfNumber (x : ℚ) : ℤ := toInt16 (jsTrunc x)

/-- The quantization loop of `createBlob` (lines 223-228):
`int16[i] = data[i] * 32768`. -/
def createBlobSamples (data : List ℚ) : List ℤ :=
  data.map (fun x => int16OfNumber (x * 32768))

/-- The two bytes of one stored int16 element as seen through a `Uint8Array`
view of the same buffer (native little-endian order; the decoder reads the
bytes back through the same kind of view, so the order is symmetric). -/
def int16ToBytes (v : ℤ) : List ℕ :=
  [(v % 65536).toNat % 256, (v % 65536).toNat / 256]

/-- `new Uint8Array(int16.buffer)`: the byte image of an `Int16Array`. -/
def int16sToBytes : List ℤ → List ℕ
  | [] => []
  | v :: rest => int16ToBytes v ++ int16sToBytes rest

/-- `new Int16Array(data.buffer)` element values: consecutive byte pairs,
little-endian, reinterpreted as signed 16-bit integers.  (The constructor
itself additionally requires the byte length to be even; that check lives in
`decodeAudioData` below.) -/
def bytesToInt16s : List ℕ → List ℤ
  | b0 :: b1 :: rest =>
      (if (b0 + 256 * b1 : ℤ) < 32768 then (b0 + 256 * b1 : ℤ)
       else (b0 + 256 * b1 : ℤ) - 65536) :: bytesToInt16s rest
  | _ => []

/-- The RFC 4648 base64 alphabet used by `btoa`/`atob`. -/
def base64Alphabet : List Char :=
  ['A', 'B', 'C', 'D', 'E', 'F', 'G', 'H', 'I', 'J', 'K', 'L', 'M',
   'N', 'O', 'P', 'Q', 'R', 'S', 'T', 'U', 'V', 'W', 'X', 'Y', 'Z',
   'a', 'b', 'c', 'd', 'e', 'f', 'g', 'h', 'i', 'j', 'k', 'l', 'm',
   'n', 'o', 'p', 'q', 'r', 's', 't', 'u', 'v', 'w', 'x', 'y', 'z',
   '0', '1', '2', '3', '4', '5', '6', '7', '8', '9', '+', '/']

/-- The base64 digit for a sextet. -/
def b64Char (n : ℕ) : Char := base64Alphabet.getD n 'A'

/-- The sextet of a base64 digit. -/
def b64Index (c : Char) : ℕ := base64Alphabet.indexOf c

/-- `btoa` on a byte sequence (the source's `encode` turns the bytes into a
binary string and calls the platform `btoa`): emit one four-digit group per
three bytes, padding a final one- or two-byte group with `=`. -/
def btoa : List ℕ → List Char
  | [] => []
  | [a] => [b64Char (a / 4), b64Char (a % 4 * 16), '=', '=']
  | [a, b] =>
      [b64Char (a / 4), b64Char (a % 4 * 16 + b / 16), b64Char (b % 16 * 4), '=']
  | a :: b :: c :: rest =>
      b64Char (a / 4) :: b64Char (a % 4 * 16 + b / 16) ::
        b64Char (b % 16 * 4 + c / 64) :: b64Char (c % 64) :: btoa rest

/-- `atob` (the source's `decode` calls the platform `atob` and reads the
result's char codes into a `Uint8Array`): consume four-digit groups, the
last group possibly `=`-padded; anything else is malformed. -/
def atob : List Char → Option (List ℕ)
  | [] => some []
  | c1 :: c2 :: c3 :: c4 :: rest =>
      if c4 = '=' then
        if rest = [] then
          if c3 = '=' then some [b64Index c1 * 4 + b64Index c2 / 16]
          else some [b64Index c1 * 4 + b64Index c2 / 16,
                     b64Index c2 % 16 * 16 + b64Index c3 / 4]
        else none
      else do
        let r ← atob rest
        pure ((b64Index c1 * 4 + b64Index c2 / 16) ::
              (b64Index c2 % 16 * 16 + b64Index c3 / 4) ::
              (b64Index c3 % 4 * 64 + b64Index c4) :: r)
  | _ => none

/-- `createBlob` from `geminiService.ts` lines 223-228: quantize the samples
to int16, view the buffer as bytes, and base64-encode them (`encode`,
lines 230-234). -/
def createBlob (data : List ℚ) : List Char :=
  btoa (int16sToBytes (createBlobSamples data))

/-- `decodeAudioData` from `geminiService.ts` lines 263-272.
`new Int16Array(data.buffer)` throws a `RangeError` when the byte length is
not a multiple of 2; `frames = int16.length / numChannels` is truncated to an
integer by the Web IDL `unsigned long` conversion at
`ctx.createBuffer(numChannels, frames, sampleRate)`, which throws a
`NotSupportedError` when that length is zero; the de-interleaving loop's
out-of-bounds typed-array writes (for a trailing partial frame) are silently
discarded, so channel `c` holds `int16[i * numChannels + c] / 32768` for
`i < frames`.  The sample rate only tags the resulting buffer. -/
def decodeAudioData (data : List ℕ) (numChannels : ℕ) (_sampleRate : ℚ) :
    Except String (List (List ℚ)) :=
  if data.length % 2 ≠ 0 then .error "RangeError"
  else
    let int16 := bytesToInt16s data
    let frames := int16.length / numChannels
    if frames = 0 then .error "NotSupportedError"
    else .ok ((List.range numChannels).map (fun c =>
      (List.range frames).map (fun i =>
        ((int16.getD (i * numChannels + c) 0 : ℚ) / 32768))))

/-- The full inbound path applied to an outbound-encoded buffer: base64
decode (`decode`) then `decodeAudioData` at channel count 1, as in
`connectLive.onmessage` and `speakMultiVoiceSegments`. -/
def decodedRoundTrip (data : List ℚ) : Except String (List (List ℚ)) :=
  match atob (createBlob data) with
  | some bytes => decodeAudioData bytes 1 24000
  | none => .error "atob"

lemma toInt16_range (n : ℤ) : -32768 ≤ toInt16 n ∧ toInt16 n ≤ 32767 := by
  unfold toInt16
  dsimp only
  split <;> omega

lemma toInt16_eq_self (n : ℤ) (hlo : -32768 ≤ n) (hhi : n ≤ 32767) :
    toInt16 n = n := by
  unfold toInt16
  dsimp only
  split <;> omega

lemma int16ToBytes_lt (v : ℤ) : ∀ b ∈ int16ToBytes v, b < 256 := by
  intro b hb
  unfold int16ToBytes at hb
  simp only [List.mem_cons, List.not_mem_nil, or_false] at hb
  have h1 : (v % 65536).toNat < 65536 := by omega
  rcases hb with h | h <;> omega

lemma int16sToBytes_lt (vs : List ℤ) : ∀ b ∈ int16sToBytes vs, b < 256 := by
  induction vs with
  | nil => intro b hb; cases hb
  | cons v rest ih =>
      intro b hb
      rw [int16sToBytes, List.mem_append] at hb
      rcases hb with h | h
      · exact int16ToBytes_lt v b h
      · exact ih b h

lemma bytesToInt16s_int16sToBytes (vs : List ℤ)
    (h : ∀ v ∈ vs, -32768 ≤ v ∧ v < 32768) :
    bytesToInt16s (int16sToBytes vs) = vs := by
  induction vs with
  | nil => rfl
  | cons v rest ih =>
      have hv := h v (by simp)
      have hrest : ∀ w ∈ rest, -32768 ≤ w ∧ w < 32768 :=
        fun w hw => h w (by simp [hw])
      simp only [int16sToBytes, int16ToBytes, List.cons_append, List.append_eq,
        List.nil_append, bytesToInt16s, ih hrest, List.cons.injEq, and_true]
      have hn : ((v % 65536).toNat : ℤ) = v % 65536 := by omega
      generalize hgen : (v % 65536).toNat = n at hn ⊢
      have key : ((n % 256 : ℕ) : ℤ) + 256 * ((n / 256 : ℕ) : ℤ) = (n : ℤ) := by
        omega
      rw [key]
      split <;> omega

lemma int16sToBytes_length (vs : List ℤ) :
    (int16sToBytes vs).length = 2 * vs.length := by
  induction vs with
  | nil => rfl
  | cons v rest ih => simp [int16sToBytes, int16ToBytes, ih]; omega

lemma b64Index_b64Char (n : ℕ) (h : n < 64) : b64Index (b64Char n) = n := by
  interval_cases n <;> rfl

lemma b64Char_ne_pad (n : ℕ) (h : n < 64) : b64Char n ≠ '=' := by
  interval_cases n <;> decide

lemma atob_btoa : ∀ bs : List ℕ, (∀ b ∈ bs, b < 256) → atob (btoa bs) = some bs := by
  intro bs
  induction bs using btoa.induct with
  | case1 => intro _; rfl
  | case2 a =>
      intro h
      have ha : a < 256 := h a (by simp)
      rw [btoa, atob]
      rw [if_pos rfl, if_pos rfl, if_pos rfl]
      rw [b64Index_b64Char (a / 4) (by omega),
        b64Index_b64Char (a % 4 * 16) (by omega)]
      congr 2
      omega
  | case3 a b =>
      intro h
      have ha : a < 256 := h a (by simp)
      have hb : b < 256 := h b (by simp)
      rw [btoa, atob]
      rw [if_pos rfl, if_pos rfl, if_neg (b64Char_ne_pad (b % 16 * 4) (by omega))]
      rw [b64Index_b64Char (a / 4) (by omega),
        b64Index_b64Char (a % 4 * 16 + b / 16) (by omega),
        b64Index_b64Char (b % 16 * 4) (by omega)]
      congr 3
      · omega
      · omega
  | case4 a b c rest ih =>
      intro h
      have ha : a < 256 := h a (by simp)
      have hb : b < 256 := h b (by simp)
      have hc : c < 256 := h c (by simp)
      have hrest : ∀ x ∈ rest, x < 256 := fun x hx => h x (by simp [hx])
      rw [btoa, atob]
      rw [if_neg (b64Char_ne_pad (c % 64) (by omega))]
      rw [ih hrest]
      rw [b64Index_b64Char (a / 4) (by omega),
        b64Index_b64Char (a % 4 * 16 + b / 16) (by omega),
        b64Index_b64Char (b % 16 * 4 + c / 64) (by omega),
        b64Index_b64Char (c % 64) (by omega)]
      simp only [Option.bind_eq_bind, Option.some_bind, Option.pure_def,
        Option.some.injEq, List.cons.injEq, and_true]
      refine ⟨by omega, by omega, by omega⟩

lemma range_map_getD (f : ℤ → ℚ) (vs : List ℤ) :
    (List.range vs.length).map (fun i => f (vs.getD i 0)) = vs.map f := by
  induction vs with
  | nil => rfl
  | cons v tail ih =>
      simp only [List.length_cons, List.range_succ_eq_map, List.map_cons,
        List.map_map, List.getD_cons_zero, Function.comp_def, List.getD_cons_succ]
      rw [ih]

/-- The per-sample decode step `int16[k] / 32768.0`. -/
def int16ToSample (v : ℤ) : ℚ := (v : ℚ) / 32768

lemma decodeAudioData_int16sToBytes_mono (vs : List ℤ) (rate : ℚ)
    (hne : vs ≠ []) (h : ∀ v ∈ vs, -32768 ≤ v ∧ v < 32768) :
    decodeAudioData (int16sToBytes vs) 1 rate = .ok [vs.map int16ToSample] := by
  unfold decodeAudioData
  rw [if_neg (by rw [int16sToBytes_length]; omega)]
  rw [bytesToInt16s_int16sToBytes vs h]
  rw [if_neg (by simp [Nat.div_one, hne, List.length_eq_zero])]
  congr 1
  rw [show List.range 1 = [0] by rfl]
  simp only [List.map_cons, List.map_nil, Nat.div_one, mul_one, add_zero]
  exact congrArg (fun l => [l]) (range_map_getD int16ToSample vs)

lemma int16OfNumber_quantize_error (x : ℚ) (h1 : -1 ≤ x) (h2 : x < 1) :
    |x - (int16OfNumber (x * 32768) : ℚ) / 32768| ≤ 1 / 32768 := by
  have hql : (-32768 : ℚ) ≤ x * 32768 := by nlinarith
  have hqu : x * 32768 < 32768 := by nlinarith
  have htrange : -32768 ≤ jsTrunc (x * 32768) ∧ jsTrunc (x * 32768) ≤ 32767 := by
    unfold jsTrunc
    split
    · constructor
      · have h3 : (0 : ℤ) ≤ ⌊x * 32768⌋ := Int.floor_nonneg.mpr (by assumption)
        omega
      · have h3 : ⌊x * 32768⌋ < 32768 := by
          rw [Int.floor_lt]
          exact_mod_cast hqu
        omega
    · constructor
      · have h3 : ((-32768 : ℤ) : ℚ) ≤ (⌈x * 32768⌉ : ℚ) :=
          le_trans (by exact_mod_cast hql) (Int.le_ceil (x * 32768))
        exact_mod_cast h3
      · have h3 : ⌈x * 32768⌉ ≤ 0 := by
          rw [Int.ceil_le]
          push_cast
          linarith
        omega
  have hw : int16OfNumber (x * 32768) = jsTrunc (x * 32768) :=
    toInt16_eq_self _ htrange.1 htrange.2
  have herr : |x * 32768 - (jsTrunc (x * 32768) : ℚ)| ≤ 1 := by
    unfold jsTrunc
    split
    · rw [abs_le]
      constructor
      · have h3 := Int.floor_le (x * 32768)
        linarith
      · have h3 := Int.lt_floor_add_one (x * 32768)
        push_cast at h3
        linarith
    · rw [abs_le]
      constructor
      · have h3 := Int.ceil_lt_add_one (x * 32768)
        push_cast at h3
        linarith
      · have h3 := Int.le_ceil (x * 32768)
        linarith
  rw [hw]
  have heq : x - (jsTrunc (x * 32768) : ℚ) / 32768 =
      (x * 32768 - (jsTrunc (x * 32768) : ℚ)) / 32768 := by
    ring
  rw [heq, abs_div, abs_of_pos (by norm_num : (0 : ℚ) < 32768)]
  linarith [herr]

lemma createBlobSamples_range (xs : List ℚ) :
    ∀ v ∈ createBlobSamples xs, -32768 ≤ v ∧ v < 32768 := by
  intro v hv
  simp only [createBlobSamples, List.mem_map] at hv
  obtain ⟨x, _, rfl⟩ := hv
  have h := toInt16_range (jsTrunc (x * 32768))
  unfold int16OfNumber
  omega

/-- C3 (amended): for every nonempty buffer of samples each in the
half-open range [-1.0, 1.0), encoding it (`createBlob` quantization plus
base64) and then decoding the resulting frame (`decode` plus
`decodeAudioData`) at the same sample rate and channel count reproduces the
original samples with per-sample error at most 1/32768.  (The boundary
sample 1.0 wraps — see the counterexample — and an empty buffer makes
`ctx.createBuffer` throw, so both exclusions are forced by the code.) -/
theorem createBlob_decode_roundTrip (xs : List ℚ) (hne : xs ≠ [])
    (hrange : ∀ x ∈ xs, -1 ≤ x ∧ x < 1) :
    ∃ ys : List ℚ, decodedRoundTrip xs = .ok [ys] ∧ ys.length = xs.length ∧
      ∀ i, i < xs.length → |xs.getD i 0 - ys.getD i 0| ≤ 1 / 32768 := by
  refine ⟨(createBlobSamples xs).map int16ToSample, ?_, ?_, ?_⟩
  · unfold decodedRoundTrip createBlob
    rw [atob_btoa _ (int16sToBytes_lt _)]
    exact decodeAudioData_int16sToBytes_mono _ 24000
      (by simp [createBlobSamples, hne]) (createBlobSamples_range xs)
  · simp [createBlobSamples]
  · intro i hi
    have hi2 : i < ((createBlobSamples xs).map int16ToSample).length := by
      simpa [createBlobSamples] using hi
    have hi3 : i < (createBlobSamples xs).length := by
      simpa [createBlobSamples] using hi
    rw [List.getD_eq_getElem _ _ hi2, List.getElem_map]
    rw [List.getD_eq_getElem _ _ hi]
    have hx := hrange (xs[i]) (List.getElem_mem hi)
    have hmap : (createBlobSamples xs)[i] = int16OfNumber (xs[i] * 32768) := by
      simp [createBlobSamples]
    rw [hmap]
    exact int16OfNumber_quantize_error (xs[i]) hx.1 hx.2

/-- Witness for `createBlob_decode_roundTrip` at the one-sample buffer
[1/2]. -/
theorem createBlob_decode_roundTrip_witness :
    (([(1 : ℚ)/2] : List ℚ) ≠ [] ∧ ∀ x ∈ ([(1 : ℚ)/2] : List ℚ), -1 ≤ x ∧ x < 1) ∧
    (∃ ys : List ℚ, decodedRoundTrip [(1 : ℚ)/2] = .ok [ys] ∧
      ys.length = ([(1 : ℚ)/2] : List ℚ).length ∧
      ∀ i, i < ([(1 : ℚ)/2] : List ℚ).length →
        |([(1 : ℚ)/2] : List ℚ).getD i 0 - ys.getD i 0| ≤ 1 / 32768) :=
  ⟨⟨by simp, by norm_num⟩,
   createBlob_decode_roundTrip [(1 : ℚ)/2] (by simp) (by norm_num)⟩

/-- C3 counterexample: the claim's closed range [-1.0, 1.0] fails at the
buffer [1.0] — quantization gives 1.0 * 32768 = 32768, the 16-bit store
wraps it to -32768, and the decoded sample is -1.0, an error of 2 >
1/32768. -/
theorem createBlob_decode_boundary_counterexample :
    (∀ x ∈ ([(1 : ℚ)] : List ℚ), -1 ≤ x ∧ x ≤ 1) ∧
    decodedRoundTrip [(1 : ℚ)] = .ok [[(-1 : ℚ)]] ∧
    ¬ (|(1 : ℚ) - (-1 : ℚ)| ≤ 1 / 32768) := by
  refine ⟨by norm_num, ?_, by norm_num⟩
  have hsamp : createBlobSamples [(1 : ℚ)] = [-32768] := by
    unfold createBlobSamples int16OfNumber jsTrunc
    simp only [List.map_cons, List.map_nil]
    rw [if_pos (by norm_num : (0 : ℚ) ≤ 1 * 32768)]
    rw [show ((1 : ℚ) * 32768) = ((32768 : ℤ) : ℚ) by norm_num, Int.floor_intCast]
    decide
  unfold decodedRoundTrip createBlob
  rw [hsamp]
  rw [atob_btoa _ (int16sToBytes_lt _)]
  show decodeAudioData (int16sToBytes [-32768]) 1 24000 = Except.ok [[(-1 : ℚ)]]
  rw [decodeAudioData_int16sToBytes_mono [-32768] 24000 (by simp) (by norm_num)]
  norm_num [int16ToSample]

/-- C4 (amended): a frame of odd byte length makes `decodeAudioData` fail —
`new Int16Array(data.buffer)` cannot view an odd number of bytes — for every
channel count; no buffer is produced for such a frame. -/
theorem decodeAudioData_odd_length_error (data : List ℕ) (numChannels : ℕ)
    (rate : ℚ) (h : data.length % 2 = 1) :
    decodeAudioData data numChannels rate = .error "RangeError" := by
  unfold decodeAudioData
  rw [if_pos (by omega)]

/-- Witness for `decodeAudioData_odd_length_error` at a 1-byte frame. -/
theorem decodeAudioData_odd_length_error_witness :
    ([(0 : ℕ)] : List ℕ).length % 2 = 1 ∧
    decodeAudioData [0] 1 24000 = .error "RangeError" :=
  ⟨rfl, decodeAudioData_odd_length_error [0] 1 24000 rfl⟩

/-- C4 counterexample: a 6-byte frame at channel count 2 has byte length not
a multiple of channelCount * 2 = 4, yet `decodeAudioData` does not produce a
malformed-frame error — the trailing partial frame is silently truncated
(frames = 3 / 2 = 1 after the Web IDL integer conversion) and a buffer is
returned. -/
theorem decodeAudioData_partial_frame_counterexample :
    ([(0 : ℕ), 0, 0, 0, 0, 0] : List ℕ).length % (2 * 2) ≠ 0 ∧
    decodeAudioData [0, 0, 0, 0, 0, 0] 2 24000 = .ok [[0], [0]] := by
  constructor
  · norm_num
  · unfold decodeAudioData
    rw [if_neg (by norm_num)]
    simp only [bytesToInt16s]
    norm_num [List.range_succ, List.range_zero]

/-- The clamp into [-32768, 32767] that the spec's words describe
("clamped implicitly by the integer conversion"); stated here only to be
compared against the source's conversion, which wraps. -/
def clamp16Spec (n : ℤ) : ℤ := max (-32768) (min 32767 n)

/-- C9 (amended): the encoder has no error path — `int16OfNumber` is a total
pure function whose result always lies in [-32768, 32767] — and for every
sample value x the encoded 16-bit result is trunc(x * 32768) reduced modulo
2^16 into that range (wrap-around, as §9's "values beyond ±1.0 overflow
silently" notes), which agrees with clamping exactly when trunc(x * 32768)
is already in [-32768, 32767]. -/
theorem createBlob_wraps_quantization (x : ℚ) :
    (-32768 ≤ int16OfNumber (x * 32768) ∧ int16OfNumber (x * 32768) ≤ 32767) ∧
    (int16OfNumber (x * 32768) - jsTrunc (x * 32768)) % 65536 = 0 ∧
    ((-32768 ≤ jsTrunc (x * 32768) ∧ jsTrunc (x * 32768) ≤ 32767) →
      int16OfNumber (x * 32768) = clamp16Spec (jsTrunc (x * 32768))) := by
  unfold int16OfNumber toInt16 clamp16Spec
  refine ⟨by dsimp only; split <;> omega, by dsimp only; split <;> omega, ?_⟩
  intro hr
  dsimp only
  rw [max_eq_right (by omega : (-32768 : ℤ) ≤ min 32767 (jsTrunc (x * 32768))),
    min_eq_right hr.2]
  split <;> omega

/-- Witness for `createBlob_wraps_quantization` at the in-range sample 1/2,
where the wrap agrees with the clamp. -/
theorem createBlob_wraps_quantization_witness :
    int16OfNumber ((1/2 : ℚ) * 32768) = clamp16Spec (jsTrunc ((1/2 : ℚ) * 32768)) := by
  have ht : jsTrunc ((1/2 : ℚ) * 32768) = 16384 := by
    unfold jsTrunc
    rw [if_pos (by norm_num : (0 : ℚ) ≤ 1/2 * 32768)]
    rw [show ((1/2 : ℚ) * 32768) = ((16384 : ℤ) : ℚ) by norm_num, Int.floor_intCast]
  exact (createBlob_wraps_quantization (1/2)).2.2 (by rw [ht]; omega)

/-- C9 counterexample: at x = 1.0 the source's conversion wraps
trunc(32768) = 32768 to -32768, while the clamp the claim describes would
give 32767 — the encoder wraps, it does not clamp. -/
theorem createBlob_clamp_counterexample :
    int16OfNumber ((1 : ℚ) * 32768) = -32768 ∧
    clamp16Spec (jsTrunc ((1 : ℚ) * 32768)) = 32767 ∧
    int16OfNumber ((1 : ℚ) * 32768) ≠ clamp16Spec (jsTrunc ((1 : ℚ) * 32768)) := by
  have ht : jsTrunc ((1 : ℚ) * 32768) = 32768 := by
    unfold jsTrunc
    rw [if_pos (by norm_num : (0 : ℚ) ≤ 1 * 32768)]
    rw [show ((1 : ℚ) * 32768) = ((32768 : ℤ) : ℚ) by norm_num, Int.floor_intCast]
  refine ⟨?_, ?_, ?_⟩
  · unfold int16OfNumber
    rw [ht]
    decide
  · rw [ht]
    decide
  · unfold int16OfNumber
    rw [ht]
    decide

end Reson
